import Mathlib

/-!
Verification development for the SRI (Subresource Integrity) module of the
static-site build pipeline (`sri-generator` module: `generateSRIHash`,
`generateSRIHashFromURL`, `generateSRIHashesForURLs`,
`extractExternalResources`, `addSRIAttributesToHTML`, `processHTMLForSRI`).

Text is modelled as `List Char`.  The JavaScript regular expressions used by
the module are embedded as specialised matchers that follow the backtracking
semantics of the concrete patterns appearing in the source:

* extraction pattern (per tag kind):
  `<script[^>]+src=["']?(https?:\/\/[^"'\s>]+)["']?[^>]*>` with flags `gi`
  (and the `<link ... href=` variant);
* rewrite pattern (per URL in the hash map, the URL escaped by `escapeRegex`
  so it is matched literally):
  `(<script[^>]+src=["']?URL["']?)([^>]*>)` with flags `gi`
  (and the `<link ... href=` variant).

The `i` flag is modelled by ASCII case-insensitive comparison (which is what
the flag amounts to for the ASCII literals of these patterns), the `g` flag by
a left-to-right scan that resumes after the end of each match.  Greedy
sub-patterns are modelled by preferring the longest alternative, with the
fallbacks that the backtracking engine would try; in particular the greedy
`[^>]+` before `src=`/`href=` selects the *last* position inside the tag at
which the remainder of the pattern matches.

Network and cryptography are external to the module (Node's `http`/`https`
and `crypto` libraries); they are modelled as explicit oracle parameters: a
`network` function from URL to `HttpResult` and a `digest` function standing
for `createHash(alg).update(content).digest('base64')`.
-/

set_option maxRecDepth 100000

namespace SRIGen

/-- HTML text, URLs and hashes are character lists. -/
abbrev Str := List Char

/-- Convert a Lean string literal to the `Str` model. -/
def str (s : String) : Str := s.toList

/-- ASCII lower-casing, the case folding performed by the regex `i` flag on
the ASCII literals of the patterns of this module. -/
def asciiLower (c : Char) : Char :=
  if 65 ≤ c.toNat && c.toNat ≤ 90 then Char.ofNat (c.toNat + 32) else c

/-- Case-insensitive character comparison (regex `i` flag, ASCII). -/
def ciEqChar (p c : Char) : Bool := asciiLower p == asciiLower c

/-- `leadsCI p t`: the text `t` starts with the literal `p`, ASCII
case-insensitively (a regex literal under the `i` flag). -/
def leadsCI : Str → Str → Bool
  | [], _ => true
  | _ :: _, [] => false
  | p :: ps, c :: cs => ciEqChar p c && leadsCI ps cs

/-- `leadsEq p t`: the text `t` starts with `p`, case-sensitively. -/
def leadsEq : Str → Str → Bool
  | [], _ => true
  | _ :: _, [] => false
  | p :: ps, c :: cs => p == c && leadsEq ps cs

/-- JavaScript `String.prototype.includes`: case-sensitive substring test. -/
def hasSubstr (p : Str) : Str → Bool
  | [] => leadsEq p []
  | c :: cs => leadsEq p (c :: cs) || hasSubstr p cs

/-- The character class `\s` of a JavaScript regular expression. -/
def jsSpace (c : Char) : Bool :=
  let n := c.toNat
  (9 ≤ n && n ≤ 13) || n == 32 || n == 160 || n == 0x1680 ||
    (0x2000 ≤ n && n ≤ 0x200A) || n == 0x2028 || n == 0x2029 ||
    n == 0x202F || n == 0x205F || n == 0x3000 || n == 0xFEFF

/-- A quote character, the class `["']` of the patterns. -/
def qmark (c : Char) : Bool := c == '"' || c == Char.ofNat 39

/-- The class `[^"'\s>]` (negated): a character ending the URL capture. -/
def isUrlDelim (c : Char) : Bool :=
  c == '"' || c == Char.ofNat 39 || jsSpace c || c == '>'

/-- Length consumed by the greedy `["']?` at the head of `t` (`1` if the next
character is a quote, else `0`). -/
def headQuoteLen : Str → Nat
  | c :: _ => if qmark c then 1 else 0
  | [] => 0

/-- `[^>]*>` from the head of `t`: number of characters up to and including
the first `>`, or `none` when `t` has no `>` (the match fails). -/
def firstGtSplit (t : Str) : Option Nat :=
  let k := (t.takeWhile (fun c => !(c == '>'))).length
  if k < t.length then some (k + 1) else none

/-- `pickLast f b`: the value of `f` at the largest `n` with `1 ≤ n ≤ b` for
which `f n` succeeds — the first success of a greedy `[^>]+` that tries the
longest repetition first. -/
def pickLast {α : Type} (f : Nat → Option α) : Nat → Option α
  | 0 => none
  | n + 1 =>
    match f (n + 1) with
    | some r => some r
    | none => pickLast f n

/-- Pattern literals of the module. -/
def scriptLit : Str := str "<script"
def linkLit : Str := str "<link"
def srcLit : Str := str "src="
def hrefLit : Str := str "href="
def styLit : Str := str "stylesheet"
def integLit : Str := str "integrity="
def httpLit : Str := str "http"
def sLit : Str := str "s"
def slashesLit : Str := str "://"
def http7 : Str := str "http://"
def https8 : Str := str "https://"

/-- The capture `(https?:\/\/[^"'\s>]+)` at the head of `t` (case-insensitive
`https?://`, then a maximal nonempty run of non-delimiter characters); returns
the captured text (original characters of `t`). -/
def httpCapture (t : Str) : Option Str :=
  if leadsCI httpLit t then
    let t4 := t.drop 4
    let sl : Option Nat :=
      if leadsCI sLit t4 && leadsCI slashesLit (t4.drop 1) then some 1
      else if leadsCI slashesLit t4 then some 0
      else none
    match sl with
    | some k =>
      let t5 := t4.drop (k + 3)
      let cnt := (t5.takeWhile (fun c => !(isUrlDelim c))).length
      if cnt == 0 then none else some (t.take (4 + k + 3 + cnt))
    | none => none
  else none

/-- One attempt of the extraction pattern with the greedy `[^>]+` fixed at
length `n` (`u` is the text after the tag literal): `attrLit` (`src=` or
`href=`), greedy `["']?`, the URL capture, greedy `["']?`, then `[^>]*>`.
Returns the captured URL and the end offset of the match within `u`. -/
def attemptX (attrLit : Str) (u : Str) (n : Nat) : Option (Str × Nat) :=
  let t := u.drop n
  if leadsCI attrLit t then
    let t2 := t.drop attrLit.length
    let q := headQuoteLen t2
    match httpCapture (t2.drop q) with
    | some cap =>
      let t5 := t2.drop (q + cap.length)
      let tq := headQuoteLen t5
      match firstGtSplit (t5.drop tq) with
      | some g => some (cap, n + attrLit.length + q + cap.length + tq + g)
      | none => none
    | none => none
  else none

/-- Match of the extraction pattern starting exactly at the head of `s`.
Returns `(full tag text, captured URL, text after the match)`.  The greedy
`[^>]+` is resolved by `pickLast` over the run of non-`>` characters that
follows the tag literal. -/
def matchTagAt (tagLit attrLit : Str) (s : Str) : Option (Str × Str × Str) :=
  if leadsCI tagLit s then
    let u := s.drop tagLit.length
    let run := (u.takeWhile (fun c => !(c == '>'))).length
    match pickLast (attemptX attrLit u) run with
    | some (cap, endOff) =>
      let len := tagLit.length + endOff
      some (s.take len, cap, s.drop len)
    | none => none
  else none

/-- The `g`-flag scan of the extraction pattern: try a match at every
position, left to right, resuming after the end of each match; collects
`(full tag text, captured URL)` pairs.  `fuel` is the length of the text. -/
def scanTags (tagLit attrLit : Str) : Nat → Str → List (Str × Str)
  | 0, _ => []
  | _ + 1, [] => []
  | fuel + 1, s@(_ :: cs) =>
    match matchTagAt tagLit attrLit s with
    | some (tag, url, rest) => (tag, url) :: scanTags tagLit attrLit fuel rest
    | none => scanTags tagLit attrLit fuel cs

/-- Candidate consumed lengths for `["']?URL` at the head of `t` (the URL is
matched literally, case-insensitively, thanks to `escapeRegex`): the greedy
branch consuming a quote first, then the backtracking branch without it. -/
def quoteLitCands (url : Str) (t : Str) : List Nat :=
  (match t with
   | c :: cs => if qmark c && leadsCI url cs then [url.length + 1] else []
   | [] => []) ++
  (if leadsCI url t then [url.length] else [])

/-- One attempt of the rewrite pattern with `[^>]+` fixed at length `n`:
`attrLit`, `["']?URL["']?` (candidates tried in backtracking order), then
`[^>]*>`.  Returns the end offset of group 1 within `u` and the length of
group 2. -/
def tryUrlAt (attrLit url : Str) (u : Str) (n : Nat) : Option (Nat × Nat) :=
  let t := u.drop n
  if leadsCI attrLit t then
    let t2 := t.drop attrLit.length
    (quoteLitCands url t2).findSome? fun k =>
      let t3 := t2.drop k
      let tq := headQuoteLen t3
      match firstGtSplit (t3.drop tq) with
      | some g => some (n + attrLit.length + k + tq, g)
      | none => none
  else none

/-- Match of the rewrite pattern `(<tag[^>]+attr=["']?URL["']?)([^>]*>)`
starting exactly at the head of `s`.  Returns `(group 1, group 2, text after
the match)`. -/
def matchTagUrlAt (tagLit attrLit url : Str) (s : Str) :
    Option (Str × Str × Str) :=
  if leadsCI tagLit s then
    let u := s.drop tagLit.length
    let run := (u.takeWhile (fun c => !(c == '>'))).length
    match pickLast (tryUrlAt attrLit url u) run with
    | some (o1, g2len) =>
      let g1len := tagLit.length + o1
      some (s.take g1len, (s.drop g1len).take g2len, s.drop (g1len + g2len))
    | none => none
  else none

/-- The two attributes inserted by the rewriter between group 1 and group 2:
`integrity="<hash>" crossorigin="anonymous"` (with a leading space). -/
def insertedAttrs (hash : Str) : Str :=
  str " integrity=\"" ++ hash ++ str "\" crossorigin=\"anonymous\""

/-- `String.prototype.replace` with the rewrite pattern (`g` flag) and the
source's replacement callback: a match whose group 1 already contains
`integrity=` is kept verbatim, otherwise the two attributes are inserted
between group 1 and group 2.  `fuel` is the length of the text. -/
def replaceTagUrl (tagLit attrLit url hash : Str) : Nat → Str → Str
  | 0, s => s
  | _ + 1, [] => []
  | fuel + 1, s@(c :: cs) =>
    match matchTagUrlAt tagLit attrLit url s with
    | some (g1, g2, rest) =>
      (if hasSubstr integLit g1 then g1 ++ g2
       else g1 ++ insertedAttrs hash ++ g2) ++
        replaceTagUrl tagLit attrLit url hash fuel rest
    | none => c :: replaceTagUrl tagLit attrLit url hash fuel cs

/-- The push-if-absent step of the extraction loops:
`if (!list.includes(url)) list.push(url)`. -/
def pushNew (acc : List Str) (u : Str) : List Str :=
  if u ∈ acc then acc else acc ++ [u]

/-- The two URL lists produced by `extractExternalResources`. -/
structure Resources where
  scripts : List Str
  stylesheets : List Str
deriving DecidableEq

/-- `extractExternalResources(html)`: scan for external script tags and
external link tags; push each captured URL if not already present; a link
tag's URL is pushed only when the full tag text contains `stylesheet`
(`fullTag.includes('stylesheet')`). -/
def extractExternalResources (html : Str) : Resources :=
  { scripts :=
      (scanTags scriptLit srcLit html.length html).foldl
        (fun acc e => pushNew acc e.2) []
    stylesheets :=
      (scanTags linkLit hrefLit html.length html).foldl
        (fun acc e => if hasSubstr styLit e.1 then pushNew acc e.2 else acc)
        [] }

/-- Body of the rewriter's per-entry loop: skip falsy hashes
(`if (!hash) continue` — `null` and the empty string), then run the global
script-tag replace followed by the global link-tag replace on the current
text. -/
def applyHashEntry (updated : Str) (entry : Str × Option Str) : Str :=
  match entry.2 with
  | none => updated
  | some h =>
    if h.isEmpty then updated
    else
      let afterScripts :=
        replaceTagUrl scriptLit srcLit entry.1 h updated.length updated
      replaceTagUrl linkLit hrefLit entry.1 h afterScripts.length afterScripts

/-- `addSRIAttributesToHTML(html, sriHashes)`: fold the per-entry loop over
the `[url, hash]` entries of the map, in order. -/
def addSRIAttributesToHTML (html : Str)
    (sriHashes : List (Str × Option Str)) : Str :=
  sriHashes.foldl applyHashEntry html

/-- `hash = truthy` test used by the rewriter's `if (!hash) continue`. -/
def hashTruthy : Option Str → Bool
  | none => false
  | some h => !h.isEmpty

/-- `generateSRIHash(content, algorithm)`:
`` `${algorithm}-${base64Hash}` `` where `base64Hash` is the base64 digest of
the content.  The `crypto` library call is the oracle `digest`. -/
def generateSRIHash (digest : Str → List Nat → Str) (content : List Nat)
    (algorithm : Str) : Str :=
  algorithm ++ [Char.ofNat 45] ++ digest algorithm content

/-- Outcome of the single HTTP request performed by
`generateSRIHashFromURL`: a transport error or a response with a status code
and a body. -/
inductive HttpResult where
  | netError (msg : Str)
  | response (status : Nat) (body : List Nat)
deriving DecidableEq

/-- `generateSRIHashFromURL(url, algorithm)`: perform the request (the
`network` oracle); a transport error rejects with
`` `Failed to fetch ${url}: ${error.message}` ``; a response whose status code
is not exactly `200` rejects with
`` `Failed to fetch ${url}: HTTP ${statusCode}` `` (redirects are not
followed); otherwise the accumulated body is hashed and the promise resolves.
Rejection is modelled by `Except.error`. -/
def generateSRIHashFromURL (network : Str → HttpResult)
    (digest : Str → List Nat → Str) (url : Str) (algorithm : Str) :
    Except Str Str :=
  match network url with
  | .netError msg => .error (str "Failed to fetch " ++ url ++ str ": " ++ msg)
  | .response status body =>
    if status ≠ 200 then
      .error (str "Failed to fetch " ++ url ++ str ": HTTP " ++
        str (toString status))
    else
      .ok (generateSRIHash digest body algorithm)

/-- `results[url] = v` on a JavaScript object with non-numeric keys: update in
place when the key is present, else append. -/
def setKey (m : List (Str × Option Str)) (k : Str) (v : Option Str) :
    List (Str × Option Str) :=
  match m with
  | [] => [(k, v)]
  | (k', v') :: rest =>
    if k' = k then (k, v) :: rest else (k', v') :: setKey rest k v

/-- Key lookup on the results object (`some v` when the key is present). -/
def lookupKey (m : List (Str × Option Str)) (k : Str) : Option (Option Str) :=
  match m with
  | [] => none
  | (k', v') :: rest => if k' = k then some v' else lookupKey rest k

/-- Body of the batch loop of `generateSRIHashesForURLs`: await the per-URL
fetch; on success store the hash (`results[url] = hash`), on rejection
(`try`/`catch`) store `null` (`results[url] = null`). -/
def recordURL (network : Str → HttpResult) (digest : Str → List Nat → Str)
    (algorithm : Str) (results : List (Str × Option Str)) (url : Str) :
    List (Str × Option Str) :=
  match generateSRIHashFromURL network digest url algorithm with
  | .ok h => setKey results url (some h)
  | .error _ => setKey results url none

/-- `generateSRIHashesForURLs(urls, algorithm)`: fold the batch loop over the
URLs in order; always returns the results object (every per-URL rejection is
caught, so no exception escapes the batch). -/
def generateSRIHashesForURLs (network : Str → HttpResult)
    (digest : Str → List Nat → Str) (algorithm : Str) (urls : List Str) :
    List (Str × Option Str) :=
  urls.foldl (recordURL network digest algorithm) []

/-- The per-URL entry that `generateSRIHashesForURLs` records: the hash on
success, `null` on failure. -/
def hashOutcome (network : Str → HttpResult)
    (digest : Str → List Nat → Str) (algorithm : Str) (url : Str) :
    Option Str :=
  match generateSRIHashFromURL network digest url algorithm with
  | .ok h => some h
  | .error _ => none

/-- The `ProcessingResult` returned by `processHTMLForSRI`. -/
structure SRIResult where
  html : Str
  resources : Resources
  hashes : List (Str × Option Str)
  modified : Bool
deriving DecidableEq

/-- `processHTMLForSRI(html, options)`: extract the resources; with zero URLs
(or with `skipFetch`) return the input text, no hashes and `modified:false`;
otherwise fetch and hash all URLs and rewrite the text, reporting
`modified: updatedHtml !== html`. -/
def processHTMLForSRI (network : Str → HttpResult)
    (digest : Str → List Nat → Str) (algorithm : Str) (sk : Bool)
    (html : Str) : SRIResult :=
  let resources := extractExternalResources html
  let allUrls := resources.scripts ++ resources.stylesheets
  if allUrls.length == 0 then
    { html := html, resources := resources, hashes := [], modified := false }
  else if sk then
    { html := html, resources := resources, hashes := [], modified := false }
  else
    let hashes := generateSRIHashesForURLs network digest algorithm allUrls
    let updatedHtml := addSRIAttributesToHTML html hashes
    { html := updatedHtml, resources := resources, hashes := hashes,
      modified := updatedHtml != html }

/-- Index of the first occurrence of `u` in `l` (used to state the
ordered-by-first-occurrence property of the extracted URL lists). -/
def firstIdx : List Str → Str → Nat
  | [], _ => 0
  | a :: l, u => if a = u then 0 else firstIdx l u + 1

theorem lookupKey_setKey_self (m : List (Str × Option Str)) (k : Str)
    (v : Option Str) : lookupKey (setKey m k v) k = some v := by
  induction m with
  | nil => simp [setKey, lookupKey]
  | cons e rest ih =>
    obtain ⟨k', v'⟩ := e
    by_cases h : k' = k <;> simp [setKey, lookupKey, h, ih]

theorem lookupKey_setKey_ne (m : List (Str × Option Str)) (k u : Str)
    (v : Option Str) (h : u ≠ k) :
    lookupKey (setKey m k v) u = lookupKey m u := by
  induction m with
  | nil => simp [setKey, lookupKey, Ne.symm h]
  | cons e rest ih =>
    obtain ⟨k', v'⟩ := e
    by_cases hk : k' = k
    · subst hk
      simp [setKey, lookupKey, Ne.symm h]
    · simp [setKey, lookupKey, hk, ih]

theorem recordURL_lookup (network : Str → HttpResult)
    (digest : Str → List Nat → Str) (algorithm : Str)
    (results : List (Str × Option Str)) (url : Str) :
    lookupKey (recordURL network digest algorithm results url) url =
      some (hashOutcome network digest algorithm url) := by
  unfold recordURL hashOutcome
  cases generateSRIHashFromURL network digest url algorithm <;>
    simp [lookupKey_setKey_self]

theorem recordURL_lookup_ne (network : Str → HttpResult)
    (digest : Str → List Nat → Str) (algorithm : Str)
    (results : List (Str × Option Str)) (url u : Str) (h : u ≠ url) :
    lookupKey (recordURL network digest algorithm results url) u =
      lookupKey results u := by
  unfold recordURL
  cases generateSRIHashFromURL network digest url algorithm <;>
    simp [lookupKey_setKey_ne _ _ _ _ h]

theorem foldl_recordURL_lookup (network : Str → HttpResult)
    (digest : Str → List Nat → Str) (algorithm : Str) (urls : List Str) :
    ∀ (acc : List (Str × Option Str)) (u : Str),
      lookupKey (urls.foldl (recordURL network digest algorithm) acc) u =
        if u ∈ urls then some (hashOutcome network digest algorithm u)
        else lookupKey acc u := by
  induction urls with
  | nil => intro acc u; simp
  | cons a rest ih =>
    intro acc u
    rw [List.foldl_cons, ih]
    by_cases hr : u ∈ rest
    · simp [hr, List.mem_cons]
    · by_cases ha : u = a
      · subst ha
        simp [hr, recordURL_lookup]
      · simp [hr, ha, recordURL_lookup_ne _ _ _ _ _ _ ha]

theorem foldl_applyHashEntry_filter :
    ∀ (M : List (Str × Option Str)) (html : Str),
      M.foldl applyHashEntry html =
        (M.filter fun e => hashTruthy e.2).foldl applyHashEntry html := by
  intro M
  induction M with
  | nil => intro html; rfl
  | cons e rest ih =>
    intro html
    obtain ⟨u, h⟩ := e
    cases h with
    | none =>
      simpa [hashTruthy, applyHashEntry] using ih html
    | some hv =>
      by_cases he : hv.isEmpty
      · simpa [hashTruthy, he, applyHashEntry] using ih html
      · simp only [List.foldl_cons, List.filter_cons, hashTruthy, he,
          Bool.not_false, if_true]
        exact ih (applyHashEntry html (u, some hv))

theorem mem_foldl_pushNew (R : List Str) :
    ∀ (acc : List Str) (u : Str),
      u ∈ R.foldl pushNew acc ↔ u ∈ acc ∨ u ∈ R := by
  induction R with
  | nil => simp
  | cons a rest ih =>
    intro acc u
    rw [List.foldl_cons, ih]
    unfold pushNew
    by_cases ha : a ∈ acc
    · simp only [if_pos ha, List.mem_cons]
      constructor
      · rintro (h | h)
        · exact Or.inl h
        · exact Or.inr (Or.inr h)
      · rintro (h | h | h)
        · exact Or.inl h
        · exact Or.inl (h ▸ ha)
        · exact Or.inr h
    · simp only [if_neg ha, List.mem_append, List.mem_singleton,
        List.mem_cons]
      tauto

theorem nodup_foldl_pushNew (R : List Str) :
    ∀ acc : List Str, acc.Nodup → (R.foldl pushNew acc).Nodup := by
  induction R with
  | nil => intro acc h; simpa
  | cons a rest ih =>
    intro acc h
    rw [List.foldl_cons]
    apply ih
    unfold pushNew
    by_cases ha : a ∈ acc
    · simpa [ha]
    · simp only [if_neg ha]
      exact List.Nodup.append h (List.nodup_singleton a)
        (by simpa [List.disjoint_singleton] using ha)

theorem firstIdx_lt_length (l : List Str) (u : Str) (h : u ∈ l) :
    firstIdx l u < l.length := by
  induction l with
  | nil => cases h
  | cons a rest ih =>
    by_cases ha : a = u
    · simp [firstIdx, ha]
    · have hu : u ∈ rest := by
        rcases List.mem_cons.mp h with h' | h'
        · exact absurd h'.symm ha
        · exact h'
      simpa [firstIdx, ha] using Nat.succ_lt_succ (ih hu)

theorem firstIdx_append_of_mem (l l₂ : List Str) (u : Str) (h : u ∈ l) :
    firstIdx (l ++ l₂) u = firstIdx l u := by
  induction l with
  | nil => cases h
  | cons a rest ih =>
    by_cases ha : a = u
    · simp [firstIdx, ha]
    · have hu : u ∈ rest := by
        rcases List.mem_cons.mp h with h' | h'
        · exact absurd h'.symm ha
        · exact h'
      simp [firstIdx, ha, ih hu]

theorem firstIdx_append_self (l : List Str) (a : Str) (h : a ∉ l) :
    firstIdx (l ++ [a]) a = l.length := by
  induction l with
  | nil => simp [firstIdx]
  | cons b rest ih =>
    have hb : ¬b = a := fun e => h (e ▸ List.mem_cons_self b rest)
    have ha : a ∉ rest := fun hr => h (List.mem_cons_of_mem b hr)
    simp [firstIdx, hb, ih ha]

theorem pairwise_foldl_pushNew (R : List Str) :
    (R.foldl pushNew []).Pairwise fun a b => firstIdx R a < firstIdx R b := by
  induction R using List.reverseRecOn with
  | nil => simp
  | append_singleton R a ih =>
    rw [List.foldl_append, List.foldl_cons, List.foldl_nil]
    have memR : ∀ u, u ∈ R.foldl pushNew [] → u ∈ R := fun u hu =>
      ((mem_foldl_pushNew R [] u).mp hu).resolve_left (by simp)
    have hstep : pushNew (R.foldl pushNew []) a =
        if a ∈ R.foldl pushNew [] then R.foldl pushNew []
        else R.foldl pushNew [] ++ [a] := rfl
    rw [hstep]
    by_cases ha : a ∈ R.foldl pushNew []
    · rw [if_pos ha]
      refine ih.imp_of_mem ?_
      intro u v hu hv huv
      rw [firstIdx_append_of_mem R [a] u (memR u hu),
        firstIdx_append_of_mem R [a] v (memR v hv)]
      exact huv
    · rw [if_neg ha]
      rw [List.pairwise_append]
      refine ⟨ih.imp_of_mem ?_, List.pairwise_singleton _ _, ?_⟩
      · intro u v hu hv huv
        rw [firstIdx_append_of_mem R [a] u (memR u hu),
          firstIdx_append_of_mem R [a] v (memR v hv)]
        exact huv
      · intro u hu b hb
        have hb' : b = a := by simpa using hb
        rw [hb']
        have ha' : a ∉ R := fun hc =>
          ha ((mem_foldl_pushNew R [] a).mpr (Or.inr hc))
        rw [firstIdx_append_of_mem R [a] u (memR u hu),
          firstIdx_append_self R a ha']
        exact firstIdx_lt_length R u (memR u hu)

theorem foldl_pushNew_snd (l : List (Str × Str)) :
    ∀ acc : List Str,
      l.foldl (fun acc e => pushNew acc e.2) acc =
        (l.map (·.2)).foldl pushNew acc := by
  induction l with
  | nil => intro acc; rfl
  | cons e rest ih => intro acc; simp [ih]

theorem foldl_pushNew_sty (l : List (Str × Str)) :
    ∀ acc : List Str,
      l.foldl
        (fun acc e => if hasSubstr styLit e.1 then pushNew acc e.2 else acc)
        acc =
        ((l.filter fun e => hasSubstr styLit e.1).map (·.2)).foldl pushNew
          acc := by
  induction l with
  | nil => intro acc; rfl
  | cons e rest ih =>
    intro acc
    by_cases hs : hasSubstr styLit e.1
    · simp [hs, ih]
    · simp [hs, ih]

theorem leadsCI_take :
    ∀ (p t : Str) (n : Nat), leadsCI p t = true → p.length ≤ n →
      leadsCI p (t.take n) = true := by
  intro p
  induction p with
  | nil => intro t n _ _; rfl
  | cons c cs ih =>
    intro t n h hn
    cases t with
    | nil => simp [leadsCI] at h
    | cons d ds =>
      cases n with
      | zero => simp at hn
      | succ m =>
        rw [List.take_succ_cons]
        rw [leadsCI] at h ⊢
        rw [Bool.and_eq_true] at h
        obtain ⟨h1, h2⟩ := h
        rw [h1, ih ds m h2 (Nat.le_of_succ_le_succ hn)]
        rfl

theorem leadsCI_append :
    ∀ (p q t : Str), leadsCI p t = true →
      leadsCI q (t.drop p.length) = true → leadsCI (p ++ q) t = true := by
  intro p
  induction p with
  | nil => intro q t _ h2; simpa using h2
  | cons c cs ih =>
    intro q t h1 h2
    cases t with
    | nil => simp [leadsCI] at h1
    | cons d ds =>
      rw [leadsCI] at h1
      rw [Bool.and_eq_true] at h1
      obtain ⟨hc, hcs⟩ := h1
      rw [List.cons_append, leadsCI, hc]
      simp only [List.length_cons, List.drop_succ_cons] at h2
      rw [ih q ds hcs h2]
      rfl

theorem httpCapture_scheme (t cap : Str) (h : httpCapture t = some cap) :
    leadsCI http7 cap = true ∨ leadsCI https8 cap = true := by
  unfold httpCapture at h
  split at h
  case isFalse => exact absurd h (by simp)
  case isTrue hhttp =>
    simp only [] at h
    split at h
    case h_2 => exact absurd h (by simp)
    case h_1 k hk =>
      split at h
      case isTrue => exact absurd h (by simp)
      case isFalse hcnt =>
        injection h with hcap
        split at hk
        case isTrue hs =>
          injection hk with hk1
          rw [Bool.and_eq_true] at hs
          obtain ⟨hs1, hs2⟩ := hs
          right
          have h4 : httpLit.length = 4 := by decide
          have h5 : (httpLit ++ sLit).length = 5 := by decide
          have hhs : leadsCI (httpLit ++ sLit) t = true := by
            apply leadsCI_append
            · exact hhttp
            · rw [h4]; exact hs1
          have hfull : leadsCI ((httpLit ++ sLit) ++ slashesLit) t = true := by
            apply leadsCI_append
            · exact hhs
            · rw [h5]
              simpa [List.drop_drop] using hs2
          have heq : (httpLit ++ sLit) ++ slashesLit = https8 := by decide
          rw [heq] at hfull
          rw [← hcap, ← hk1]
          apply leadsCI_take https8 t _ hfull
          have : https8.length = 8 := by decide
          omega
        case isFalse =>
          split at hk
          case isTrue hsl =>
            injection hk with hk1
            left
            have h4 : httpLit.length = 4 := by decide
            have hfull : leadsCI (httpLit ++ slashesLit) t = true := by
              apply leadsCI_append
              · exact hhttp
              · rw [h4]; exact hsl
            have heq : httpLit ++ slashesLit = http7 := by decide
            rw [heq] at hfull
            rw [← hcap, ← hk1]
            apply leadsCI_take http7 t _ hfull
            have : http7.length = 7 := by decide
            omega
          case isFalse => exact absurd hk (by simp)

theorem pickLast_eq_some {α : Type} (f : Nat → Option α) :
    ∀ (b : Nat) (r : α), pickLast f b = some r → ∃ n, f n = some r := by
  intro b
  induction b with
  | zero => intro r h; simp [pickLast] at h
  | succ n ih =>
    intro r h
    unfold pickLast at h
    split at h
    case h_1 r' hr => exact ⟨n + 1, by rw [hr, h]⟩
    case h_2 => exact ih r h

theorem matchTagAt_scheme (tagLit attrLit s tag url rest : Str)
    (h : matchTagAt tagLit attrLit s = some (tag, url, rest)) :
    leadsCI http7 url = true ∨ leadsCI https8 url = true := by
  unfold matchTagAt at h
  split at h
  case isFalse => exact absurd h (by simp)
  case isTrue =>
    simp only [] at h
    split at h
    case h_2 => exact absurd h (by simp)
    case h_1 cap endOff hpick =>
      injection h with h1
      injection h1 with ha hbc
      injection hbc with h2 h3
      obtain ⟨n, hn⟩ := pickLast_eq_some _ _ _ hpick
      simp only [attemptX] at hn
      split at hn
      case isFalse => exact absurd hn (by simp)
      case isTrue =>
        split at hn
        case h_2 => exact absurd hn (by simp)
        case h_1 cap' hcap =>
          split at hn
          case h_2 => exact absurd hn (by simp)
          case h_1 g hg =>
            injection hn with hn1
            have : cap' = cap := congrArg Prod.fst hn1
            rw [← h2, ← this]
            exact httpCapture_scheme _ _ hcap

theorem scanTags_scheme (tagLit attrLit : Str) :
    ∀ (fuel : Nat) (s : Str) (e : Str × Str),
      e ∈ scanTags tagLit attrLit fuel s →
        leadsCI http7 e.2 = true ∨ leadsCI https8 e.2 = true := by
  intro fuel
  induction fuel with
  | zero => intro s e h; simp [scanTags] at h
  | succ n ih =>
    intro s e h
    cases s with
    | nil => simp [scanTags] at h
    | cons c cs =>
      rw [scanTags] at h
      split at h
      case h_1 tag url rest hm =>
        rcases List.mem_cons.mp h with he | he
        · rw [he]
          exact matchTagAt_scheme tagLit attrLit (c :: cs) tag url rest hm
        · exact ih rest e he
      case h_2 => exact ih cs e h

theorem mem_foldl_condPush (p : Str × Str → Bool) (l : List (Str × Str)) :
    ∀ (acc : List Str) (u : Str),
      u ∈ l.foldl (fun acc e => if p e then pushNew acc e.2 else acc) acc →
        u ∈ acc ∨ ∃ e ∈ l, e.2 = u ∧ p e = true := by
  induction l with
  | nil => intro acc u h; exact Or.inl h
  | cons a rest ih =>
    intro acc u h
    rw [List.foldl_cons] at h
    rcases ih _ u h with hacc | ⟨e, he, hu, hp⟩
    · by_cases hpa : p a
      · rw [if_pos hpa] at hacc
        unfold pushNew at hacc
        split at hacc
        · exact Or.inl hacc
        · rcases List.mem_append.mp hacc with h' | h'
          · exact Or.inl h'
          · exact Or.inr ⟨a, List.mem_cons_self a rest,
              (List.mem_singleton.mp h').symm, hpa⟩
      · rw [if_neg hpa] at hacc
        exact Or.inl hacc
    · exact Or.inr ⟨e, List.mem_cons_of_mem a he, hu, hp⟩

theorem hashOutcome_congr (network network2 : Str → HttpResult)
    (digest : Str → List Nat → Str) (algorithm : Str) (u : Str)
    (h : network u = network2 u) :
    hashOutcome network digest algorithm u =
      hashOutcome network2 digest algorithm u := by
  unfold hashOutcome generateSRIHashFromURL
  rw [h]

/-- C1: the claim states that `addSRIAttributesToHTML` is idempotent for
every HTML text and hash map.  The code violates this: the duplicate check
`opening.includes('integrity=')` inspects only capture group 1, which ends at
the `src` attribute, while the attributes are inserted after it; on the
rewriter's own output a second application inserts a second
`integrity`/`crossorigin` pair.  The three conjuncts evaluate the embedded
code at the failing input: the output of one application, the different
output of two applications, and their inequality. -/
theorem addSRIAttributesToHTML_not_idempotent :
    addSRIAttributesToHTML
        (str "<script src=\"https://cdn.example.com/a.js\"></script>")
        [(str "https://cdn.example.com/a.js", some (str "sha384-XXXX"))] =
      str "<script src=\"https://cdn.example.com/a.js\" integrity=\"sha384-XXXX\" crossorigin=\"anonymous\"></script>" ∧
    addSRIAttributesToHTML
        (addSRIAttributesToHTML
          (str "<script src=\"https://cdn.example.com/a.js\"></script>")
          [(str "https://cdn.example.com/a.js", some (str "sha384-XXXX"))])
        [(str "https://cdn.example.com/a.js", some (str "sha384-XXXX"))] =
      str "<script src=\"https://cdn.example.com/a.js\" integrity=\"sha384-XXXX\" crossorigin=\"anonymous\" integrity=\"sha384-XXXX\" crossorigin=\"anonymous\"></script>" ∧
    (addSRIAttributesToHTML
        (addSRIAttributesToHTML
          (str "<script src=\"https://cdn.example.com/a.js\"></script>")
          [(str "https://cdn.example.com/a.js", some (str "sha384-XXXX"))])
        [(str "https://cdn.example.com/a.js", some (str "sha384-XXXX"))] ==
      addSRIAttributesToHTML
        (str "<script src=\"https://cdn.example.com/a.js\"></script>")
        [(str "https://cdn.example.com/a.js", some (str "sha384-XXXX"))]) =
      false :=
  ⟨rfl, rfl, rfl⟩

/-- C2: the claim states that a tag already containing an `integrity`
attribute anywhere in its opening tag is left unmodified and never gains a
second `integrity` attribute.  The code violates this when the existing
`integrity` attribute follows the `src`/`href` attribute (exactly where the
rewriter itself puts it): group 1 ends at the URL, so the check misses it and
a second `integrity`/`crossorigin` pair is inserted.  The conjuncts evaluate
the embedded code at the failing input, showing the modified tag with two
`integrity` attributes. -/
theorem addSRIAttributesToHTML_duplicates_integrity :
    addSRIAttributesToHTML
        (str "<script src=\"https://cdn.example.com/a.js\" integrity=\"sha384-OLD\" crossorigin=\"anonymous\"></script>")
        [(str "https://cdn.example.com/a.js", some (str "sha384-NEW"))] =
      str "<script src=\"https://cdn.example.com/a.js\" integrity=\"sha384-NEW\" crossorigin=\"anonymous\" integrity=\"sha384-OLD\" crossorigin=\"anonymous\"></script>" ∧
    (addSRIAttributesToHTML
        (str "<script src=\"https://cdn.example.com/a.js\" integrity=\"sha384-OLD\" crossorigin=\"anonymous\"></script>")
        [(str "https://cdn.example.com/a.js", some (str "sha384-NEW"))] ==
      str "<script src=\"https://cdn.example.com/a.js\" integrity=\"sha384-OLD\" crossorigin=\"anonymous\"></script>") =
      false :=
  ⟨rfl, rfl⟩

/-- C3: the claim states that only tags whose `src`/`href` value exactly
equals a hashed URL are modified, and that a value differing by a trailing
slash does not match.  The code violates this: the closing `["']?` of the
rewrite pattern is optional, so a hashed URL that is a proper prefix of the
attribute value still matches, and the attributes are inserted in the middle
of the value, corrupting the tag.  The conjuncts evaluate the embedded code
at the failing input (value `https://a.com/x.js/`, hashed URL
`https://a.com/x.js`). -/
theorem addSRIAttributesToHTML_matches_prefix_url :
    addSRIAttributesToHTML (str "<script src=\"https://a.com/x.js/\"></script>")
        [(str "https://a.com/x.js", some (str "sha384-H"))] =
      str "<script src=\"https://a.com/x.js integrity=\"sha384-H\" crossorigin=\"anonymous\"/\"></script>" ∧
    (addSRIAttributesToHTML
        (str "<script src=\"https://a.com/x.js/\"></script>")
        [(str "https://a.com/x.js", some (str "sha384-H"))] ==
      str "<script src=\"https://a.com/x.js/\"></script>") =
      false :=
  ⟨rfl, rfl⟩

/-- C4 (counterexample): the claim states that a `rel="preload"` link tag is
never classified as a stylesheet regardless of its URL.  Classification is by
the substring `stylesheet` anywhere in the matched tag text, so a preload
link whose URL contains `stylesheet` is classified as a stylesheet. -/
theorem extractExternalResources_preload_classified :
    (extractExternalResources
        (str "<link rel=\"preload\" href=\"https://cdn.example.com/stylesheet.woff2\">")).stylesheets =
      [str "https://cdn.example.com/stylesheet.woff2"] :=
  rfl

/-- C4 (amended): a link tag is classified as a stylesheet only when the
matched tag text contains the substring `stylesheet` — so a preload link
whose tag text (including its URL) does not contain that marker is never
classified as a stylesheet; every URL in the stylesheets list comes from a
matched link tag containing the marker. -/
theorem stylesheets_only_from_marked_tags :
    ∀ (html u : Str), u ∈ (extractExternalResources html).stylesheets →
      ∃ tag, (tag, u) ∈ scanTags linkLit hrefLit html.length html ∧
        hasSubstr styLit tag = true := by
  intro html u hu
  simp only [extractExternalResources] at hu
  rcases mem_foldl_condPush (fun e => hasSubstr styLit e.1)
      (scanTags linkLit hrefLit html.length html) [] u hu with
    h | ⟨e, he, hu2, hp⟩
  · cases h
  · refine ⟨e.1, ?_, hp⟩
    rw [← hu2]
    simpa using he

/-- Witness for C4 (amended) at a genuine stylesheet link. -/
theorem stylesheets_only_from_marked_tags_app :
    ∃ tag,
      (tag, str "https://cdn.example.com/style.css") ∈
        scanTags linkLit hrefLit
          (str "<link rel=\"stylesheet\" href=\"https://cdn.example.com/style.css\">").length
          (str "<link rel=\"stylesheet\" href=\"https://cdn.example.com/style.css\">") ∧
      hasSubstr styLit tag = true :=
  stylesheets_only_from_marked_tags
    (str "<link rel=\"stylesheet\" href=\"https://cdn.example.com/style.css\">")
    (str "https://cdn.example.com/style.css") (by decide)

/-- C5: entries of the hash map whose hash is `null` (or otherwise falsy) are
skipped by the rewriter and cause no change: the output on any map equals the
output on the sub-map of truthy entries, and on a map all of whose hashes are
`null` the output is the input text, unchanged. -/
theorem addSRIAttributesToHTML_skips_null_hashes :
    ∀ (html : Str) (M : List (Str × Option Str)),
      addSRIAttributesToHTML html M =
        addSRIAttributesToHTML html (M.filter fun e => hashTruthy e.2) ∧
      ((∀ e ∈ M, e.2 = none) → addSRIAttributesToHTML html M = html) := by
  intro html M
  have hfil := foldl_applyHashEntry_filter M html
  refine ⟨hfil, ?_⟩
  intro hall
  have hnil : (M.filter fun e => hashTruthy e.2) = [] := by
    apply List.filter_eq_nil_iff.mpr
    intro e he
    rw [hall e he]
    simp [hashTruthy]
  calc addSRIAttributesToHTML html M
      = addSRIAttributesToHTML html (M.filter fun e => hashTruthy e.2) :=
        hfil
    _ = html := by rw [hnil]; rfl

/-- Witness for C5: a map with a single `null` hash leaves the tag that
references that URL completely unchanged. -/
theorem addSRIAttributesToHTML_skips_null_hashes_app :
    addSRIAttributesToHTML
        (str "<script src=\"https://cdn.example.com/a.js\"></script>")
        [(str "https://cdn.example.com/a.js", none)] =
      str "<script src=\"https://cdn.example.com/a.js\"></script>" :=
  (addSRIAttributesToHTML_skips_null_hashes
    (str "<script src=\"https://cdn.example.com/a.js\"></script>")
    [(str "https://cdn.example.com/a.js", none)]).2 (by decide)

/-- C6: the batch hasher records an entry for every URL of the list — the
hash on success, `null` on failure — and a URL's entry depends only on that
URL's own fetch outcome: replacing the network's behaviour on every other URL
does not change it.  The batch itself is a total function (every per-URL
rejection is caught), so no exception escapes it. -/
theorem generateSRIHashesForURLs_isolates_failures :
    ∀ (network network2 : Str → HttpResult) (digest : Str → List Nat → Str)
      (algorithm : Str) (urls : List Str) (u : Str),
      u ∈ urls → network u = network2 u →
      lookupKey (generateSRIHashesForURLs network digest algorithm urls) u =
        some (hashOutcome network digest algorithm u) ∧
      lookupKey (generateSRIHashesForURLs network2 digest algorithm urls) u =
        lookupKey (generateSRIHashesForURLs network digest algorithm urls)
          u := by
  intro network network2 digest algorithm urls u hu hn
  have h1 := foldl_recordURL_lookup network digest algorithm urls [] u
  have h2 := foldl_recordURL_lookup network2 digest algorithm urls [] u
  unfold generateSRIHashesForURLs
  constructor
  · rw [h1, if_pos hu]
  · rw [h1, h2, if_pos hu, if_pos hu,
      hashOutcome_congr network network2 digest algorithm u hn]

/-- Witness for C6: a failing URL (HTTP 500) is recorded as a `null` entry
and the batch still returns. -/
theorem generateSRIHashesForURLs_isolates_failures_app :
    lookupKey
        (generateSRIHashesForURLs (fun _ => HttpResult.response 500 [])
          (fun _ _ => str "B") (str "sha384")
          [str "https://x/1.js", str "https://x/2.js"])
        (str "https://x/1.js") =
      some (hashOutcome (fun _ => HttpResult.response 500 [])
        (fun _ _ => str "B") (str "sha384") (str "https://x/1.js")) ∧
    lookupKey
        (generateSRIHashesForURLs (fun _ => HttpResult.response 500 [])
          (fun _ _ => str "B") (str "sha384")
          [str "https://x/1.js", str "https://x/2.js"])
        (str "https://x/1.js") =
      lookupKey
        (generateSRIHashesForURLs (fun _ => HttpResult.response 500 [])
          (fun _ _ => str "B") (str "sha384")
          [str "https://x/1.js", str "https://x/2.js"])
        (str "https://x/1.js") :=
  generateSRIHashesForURLs_isolates_failures
    (fun _ => HttpResult.response 500 []) (fun _ => HttpResult.response 500 [])
    (fun _ _ => str "B") (str "sha384")
    [str "https://x/1.js", str "https://x/2.js"] (str "https://x/1.js")
    (by decide) rfl

/-- C7 (counterexample): the claim states that every extracted URL begins
with `http://` or `https://`.  The extraction patterns carry the `i` flag, so
an upper-case scheme matches and the captured URL is the original text, which
begins with neither string (case-sensitively). -/
theorem extractExternalResources_uppercase_scheme :
    (extractExternalResources
        (str "<SCRIPT SRC=\"HTTP://EXAMPLE.COM/A.JS\"></SCRIPT>")).scripts =
      [str "HTTP://EXAMPLE.COM/A.JS"] ∧
    leadsEq http7 (str "HTTP://EXAMPLE.COM/A.JS") = false ∧
    leadsEq https8 (str "HTTP://EXAMPLE.COM/A.JS") = false :=
  ⟨rfl, rfl, rfl⟩

/-- C7 (amended): both extracted lists are duplicate-free, contain exactly
the URLs captured by the scan (link URLs restricted to marked stylesheet
tags), are ordered by first occurrence in the text, and every listed URL
begins with `http://` or `https://` up to ASCII case. -/
theorem extractExternalResources_lists_wellformed (html : Str) :
    (extractExternalResources html).scripts.Nodup ∧
    (extractExternalResources html).stylesheets.Nodup ∧
    (∀ u, u ∈ (extractExternalResources html).scripts ↔
      u ∈ (scanTags scriptLit srcLit html.length html).map Prod.snd) ∧
    (∀ u, u ∈ (extractExternalResources html).stylesheets ↔
      u ∈ ((scanTags linkLit hrefLit html.length html).filter fun e =>
            hasSubstr styLit e.1).map Prod.snd) ∧
    (extractExternalResources html).scripts.Pairwise (fun a b =>
      firstIdx ((scanTags scriptLit srcLit html.length html).map Prod.snd) a <
        firstIdx ((scanTags scriptLit srcLit html.length html).map Prod.snd)
          b) ∧
    (extractExternalResources html).stylesheets.Pairwise (fun a b =>
      firstIdx (((scanTags linkLit hrefLit html.length html).filter fun e =>
          hasSubstr styLit e.1).map Prod.snd) a <
        firstIdx (((scanTags linkLit hrefLit html.length html).filter fun e =>
          hasSubstr styLit e.1).map Prod.snd) b) ∧
    (∀ u, u ∈ (extractExternalResources html).scripts ∨
        u ∈ (extractExternalResources html).stylesheets →
      leadsCI http7 u = true ∨ leadsCI https8 u = true) := by
  have hS : (extractExternalResources html).scripts =
      ((scanTags scriptLit srcLit html.length html).map Prod.snd).foldl
        pushNew [] := by
    simp only [extractExternalResources]
    exact foldl_pushNew_snd _ []
  have hT : (extractExternalResources html).stylesheets =
      (((scanTags linkLit hrefLit html.length html).filter fun e =>
        hasSubstr styLit e.1).map Prod.snd).foldl pushNew [] := by
    simp only [extractExternalResources]
    exact foldl_pushNew_sty _ []
  refine ⟨?_, ?_, ?_, ?_, ?_, ?_, ?_⟩
  · rw [hS]; exact nodup_foldl_pushNew _ [] List.nodup_nil
  · rw [hT]; exact nodup_foldl_pushNew _ [] List.nodup_nil
  · intro u
    rw [hS, mem_foldl_pushNew]
    simp
  · intro u
    rw [hT, mem_foldl_pushNew]
    simp
  · rw [hS]; exact pairwise_foldl_pushNew _
  · rw [hT]; exact pairwise_foldl_pushNew _
  · intro u hu
    rcases hu with hu | hu
    · rw [hS] at hu
      have := (mem_foldl_pushNew _ [] u).mp hu
      rcases this with h | h
      · cases h
      · obtain ⟨e, he, heq⟩ := List.mem_map.mp h
        have := scanTags_scheme scriptLit srcLit html.length html e he
        rw [heq] at this
        exact this
    · rw [hT] at hu
      have := (mem_foldl_pushNew _ [] u).mp hu
      rcases this with h | h
      · cases h
      · obtain ⟨e, he, heq⟩ := List.mem_map.mp h
        have he' := List.mem_of_mem_filter he
        have := scanTags_scheme linkLit hrefLit html.length html e he'
        rw [heq] at this
        exact this

/-- Witness for C7 (amended) at a concrete document. -/
theorem extractExternalResources_lists_wellformed_app :
    leadsCI http7 (str "https://cdn.example.com/a.js") = true ∨
      leadsCI https8 (str "https://cdn.example.com/a.js") = true :=
  (extractExternalResources_lists_wellformed
    (str "<script src=\"https://cdn.example.com/a.js\"></script>")).2.2.2.2.2.2
    (str "https://cdn.example.com/a.js") (Or.inl (by decide))

/-- C8: when the locator finds no external script and no external stylesheet
URL, the orchestrator returns immediately with the input text, an empty hash
map and `modified = false`; the result does not depend on the network or
digest oracles (no fetch is performed). -/
theorem processHTMLForSRI_no_resources :
    ∀ (network : Str → HttpResult) (digest : Str → List Nat → Str)
      (algorithm : Str) (sk : Bool) (html : Str),
      (extractExternalResources html).scripts = [] →
      (extractExternalResources html).stylesheets = [] →
      processHTMLForSRI network digest algorithm sk html =
        { html := html, resources := { scripts := [], stylesheets := [] },
          hashes := [], modified := false } := by
  intro network digest algorithm sk html h1 h2
  have hres : extractExternalResources html = ⟨[], []⟩ := by
    have heta : extractExternalResources html =
        ⟨(extractExternalResources html).scripts,
          (extractExternalResources html).stylesheets⟩ := rfl
    rw [heta, h1, h2]
  unfold processHTMLForSRI
  rw [hres]
  simp

/-- Witness for C8: a document with no external resources. -/
theorem processHTMLForSRI_no_resources_app :
    processHTMLForSRI (fun _ => HttpResult.netError []) (fun _ _ => [])
        (str "sha384") false (str "<p>hello</p>") =
      { html := str "<p>hello</p>",
        resources := { scripts := [], stylesheets := [] },
        hashes := [], modified := false } :=
  processHTMLForSRI_no_resources _ _ _ _ _ (by decide) (by decide)

theorem genFromURL_netError (network : Str → HttpResult)
    (digest : Str → List Nat → Str) (url algorithm m : Str)
    (hE : network url = HttpResult.netError m) :
    generateSRIHashFromURL network digest url algorithm =
      Except.error (str "Failed to fetch " ++ url ++ str ": " ++ m) := by
  unfold generateSRIHashFromURL
  rw [hE]

theorem genFromURL_response (network : Str → HttpResult)
    (digest : Str → List Nat → Str) (url algorithm : Str) (st : Nat)
    (body : List Nat) (hE : network url = HttpResult.response st body) :
    generateSRIHashFromURL network digest url algorithm =
      if st ≠ 200 then
        Except.error (str "Failed to fetch " ++ url ++ str ": HTTP " ++
          str (toString st))
      else Except.ok (generateSRIHash digest body algorithm) := by
  unfold generateSRIHashFromURL
  rw [hE]

/-- C9: the per-URL fetcher succeeds only on a response with status exactly
`200`: a success implies the response was `200`, any other status (including
redirects, which are not followed) rejects with the
`Failed to fetch <url>: HTTP <status>` message, and a transport error rejects
with the `Failed to fetch <url>: <message>` message. -/
theorem generateSRIHashFromURL_requires_200 :
    ∀ (network : Str → HttpResult) (digest : Str → List Nat → Str)
      (url algorithm : Str),
      ((∃ h, generateSRIHashFromURL network digest url algorithm =
          Except.ok h) →
        ∃ body, network url = HttpResult.response 200 body) ∧
      (∀ st body, network url = HttpResult.response st body → st ≠ 200 →
        generateSRIHashFromURL network digest url algorithm =
          Except.error (str "Failed to fetch " ++ url ++ str ": HTTP " ++
            str (toString st))) ∧
      (∀ msg, network url = HttpResult.netError msg →
        generateSRIHashFromURL network digest url algorithm =
          Except.error (str "Failed to fetch " ++ url ++ str ": " ++
            msg)) := by
  intro network digest url algorithm
  refine ⟨?_, ?_, ?_⟩
  · rintro ⟨h, hh⟩
    cases hE : network url with
    | netError m =>
      rw [genFromURL_netError network digest url algorithm m hE] at hh
      exact absurd hh (by simp)
    | response st body =>
      rw [genFromURL_response network digest url algorithm st body hE] at hh
      by_cases h200 : st = 200
      · exact ⟨body, by rw [h200]⟩
      · rw [if_pos h200] at hh
        exact absurd hh (by simp)
  · intro st body hE hne
    rw [genFromURL_response network digest url algorithm st body hE,
      if_pos hne]
  · intro msg hE
    exact genFromURL_netError network digest url algorithm msg hE

/-- Witness for C9: a `301` redirect response rejects. -/
theorem generateSRIHashFromURL_requires_200_app :
    generateSRIHashFromURL (fun _ => HttpResult.response 301 [])
        (fun _ _ => str "B") (str "https://x/a.js") (str "sha384") =
      Except.error (str "Failed to fetch " ++ str "https://x/a.js" ++
        str ": HTTP " ++ str (toString 301)) :=
  (generateSRIHashFromURL_requires_200 (fun _ => HttpResult.response 301 [])
    (fun _ _ => str "B") (str "https://x/a.js") (str "sha384")).2.1 301 []
    rfl (by decide)

/-- C10: the batch result has an entry for exactly the URLs of the input
list — the key is present iff the URL is in the list, with the hash on
success and `null` on failure — and no other key. -/
theorem generateSRIHashesForURLs_keys_exact :
    ∀ (network : Str → HttpResult) (digest : Str → List Nat → Str)
      (algorithm : Str) (urls : List Str) (u : Str),
      lookupKey (generateSRIHashesForURLs network digest algorithm urls) u =
        if u ∈ urls then some (hashOutcome network digest algorithm u)
        else none := by
  intro network digest algorithm urls u
  unfold generateSRIHashesForURLs
  rw [foldl_recordURL_lookup]
  rfl

end SRIGen
